import Mathlib

/-!
Verification of the natural-language specification of
`telegram_downloader.py` (reaction-triggered Telegram media downloader)
against a shallow embedding of its code.

Strings are embedded as `List Char`; Python `int` as `Int`/`Nat`;
optional attributes (`hasattr` probing, values that may be `None`) as
`Option`; the asyncio event loop as explicit small-step transition
systems whose atomic steps are the code segments between `await`
suspension points.
-/

namespace TgDl

/-! ## Basic string helpers (Python built-ins used by the script) -/

/-- ASCII decimal digit test (the `\d` class and `str.isdigit` on the
inputs that occur here are ASCII). -/
def isAsciiDigit (c : Char) : Bool := '0' ≤ c && c ≤ '9'

/-- Python `int(s)` for a non-empty digit string: fold of decimal digits. -/
def parseNat (s : List Char) : Nat :=
  s.foldl (fun n c => n * 10 + (c.toNat - 48)) 0

/-- Decimal digit to its character. -/
def digitChar : Nat → Char
  | 0 => '0' | 1 => '1' | 2 => '2' | 3 => '3' | 4 => '4'
  | 5 => '5' | 6 => '6' | 7 => '7' | 8 => '8' | _ => '9'

/-- Decimal rendering of a natural number, fuelled so that it reduces in
the kernel (`fuel` at least the digit count; `natToStr` supplies `n+1`). -/
def natToStrAux : Nat → Nat → List Char
  | 0, _ => []
  | fuel + 1, n =>
    if n < 10 then [digitChar n]
    else natToStrAux fuel (n / 10) ++ [digitChar (n % 10)]

/-- Python `str(n)` for `n : Nat`. -/
def natToStr (n : Nat) : List Char := natToStrAux (n + 1) n

/-- Python `str(i)` for `i : int`. -/
def intToStr : Int → List Char
  | .ofNat n => natToStr n
  | .negSucc k => '-' :: natToStr (k + 1)

/-- Python `s.lstrip('-')`: drop every leading `'-'`. -/
def lstripMinus (s : List Char) : List Char := s.dropWhile (fun c => c = '-')

/-- Python `s.isdigit()`: non-empty and all digits. -/
def isDigitStr (s : List Char) : Bool := !s.isEmpty && s.all isAsciiDigit

/-! ### Round-trip facts about decimal rendering -/

theorem digitChar_val (d : Nat) (hd : d < 10) : (digitChar d).toNat - 48 = d := by
  interval_cases d <;> decide

theorem parseNat_append_digit (s : List Char) (c : Char) :
    parseNat (s ++ [c]) = parseNat s * 10 + (c.toNat - 48) := by
  simp [parseNat, List.foldl_append]

theorem parseNat_natToStrAux (fuel n : Nat) (h : n < fuel) :
    parseNat (natToStrAux fuel n) = n := by
  induction fuel generalizing n with
  | zero => omega
  | succ fuel ih =>
    by_cases h10 : n < 10
    · simp only [natToStrAux, if_pos h10, parseNat, List.foldl_cons, List.foldl_nil]
      simpa using digitChar_val n h10
    · have hdiv : n / 10 < fuel := by
        have h1 : n / 10 < n := Nat.div_lt_self (by omega) (by omega)
        omega
      simp only [natToStrAux, if_neg h10]
      rw [parseNat_append_digit, ih _ hdiv, digitChar_val _ (Nat.mod_lt _ (by omega))]
      omega

theorem parseNat_natToStr (n : Nat) : parseNat (natToStr n) = n :=
  parseNat_natToStrAux (n + 1) n (Nat.lt_succ_self n)

theorem natToStr_injective : Function.Injective natToStr := by
  intro a b h
  have := parseNat_natToStr a
  rw [h, parseNat_natToStr] at this
  omega

/-! ## Filter Engine: `_sanitize_filename` (source lines 130-136)

```python
invalid_chars = '<>:"/\\|?*'
for char in invalid_chars:
    filename = filename.replace(char, '_')
```
-/

/-- Python `s.replace(old, new)` for single characters. -/
def replaceChar (s : List Char) (old new : Char) : List Char :=
  s.map (fun c => if c = old then new else c)

/-- The nine characters of the Python string `'<>:"/\\|?*'`. -/
def invalidChars : List Char := ['<', '>', ':', '"', '/', '\\', '|', '?', '*']

/-- `_sanitize_filename`: successively replace each invalid character by `'_'`. -/
def sanitizeFilename (filename : List Char) : List Char :=
  invalidChars.foldl (fun acc c => replaceChar acc c '_') filename

/-- The per-character effect of the whole replacement loop. -/
def sanChar (c : Char) : Char := if c ∈ invalidChars then '_' else c

/-- A left fold of single-character replacements is a map of the folded
per-character function. -/
theorem foldl_replaceChar_eq_map (cs : List Char) (s : List Char) :
    cs.foldl (fun acc c => replaceChar acc c '_') s =
      s.map (fun x => cs.foldl (fun y c => if y = c then '_' else y) x) := by
  induction cs generalizing s with
  | nil => simp
  | cons c cs ih =>
    simp only [List.foldl_cons]
    rw [ih (replaceChar s c '_')]
    simp [replaceChar, List.map_map, Function.comp]

theorem sanFold_eq_sanChar (x : Char) :
    invalidChars.foldl (fun y c => if y = c then '_' else y) x = sanChar x := by
  by_cases hm : x ∈ invalidChars
  · simp only [invalidChars, List.mem_cons, List.not_mem_nil, or_false] at hm
    rcases hm with rfl | rfl | rfl | rfl | rfl | rfl | rfl | rfl | rfl <;> decide
  · simp only [invalidChars, List.mem_cons, List.not_mem_nil, or_false, not_or] at hm
    obtain ⟨h1, h2, h3, h4, h5, h6, h7, h8, h9⟩ := hm
    simp [sanChar, invalidChars, h1, h2, h3, h4, h5, h6, h7, h8, h9]

theorem sanitizeFilename_eq_map (s : List Char) :
    sanitizeFilename s = s.map sanChar := by
  rw [sanitizeFilename, foldl_replaceChar_eq_map]
  exact List.map_congr_left (fun c _ => sanFold_eq_sanChar c)

theorem sanChar_idem (c : Char) : sanChar (sanChar c) = sanChar c := by
  by_cases h : c ∈ invalidChars
  · simp [sanChar, h]
  · simp [sanChar, h]

theorem sanChar_not_invalid (c : Char) : sanChar c ∉ invalidChars := by
  by_cases h : c ∈ invalidChars
  · simp only [sanChar, if_pos h]
    decide
  · simp only [sanChar, if_neg h]
    exact h

/-- C9: sanitizeFilename removes every occurrence of `<>:"/\|?*` (its
output contains none of them) and is idempotent. -/
theorem C9_sanitize_clean_idempotent (s : List Char) :
    (∀ c ∈ sanitizeFilename s, c ∉ invalidChars) ∧
      sanitizeFilename (sanitizeFilename s) = sanitizeFilename s := by
  constructor
  · intro c hc
    rw [sanitizeFilename_eq_map] at hc
    obtain ⟨a, _, rfl⟩ := List.mem_map.mp hc
    exact sanChar_not_invalid a
  · rw [sanitizeFilename_eq_map, sanitizeFilename_eq_map, List.map_map]
    exact List.map_congr_left (fun c _ => sanChar_idem c)

/-- C9 witness: concrete evaluation on `"a<b?.mkv"`. -/
theorem C9_sanitize_witness :
    (∀ c ∈ sanitizeFilename ['a', '<', 'b', '?', '.', 'm', 'k', 'v'], c ∉ invalidChars) ∧
      sanitizeFilename (sanitizeFilename ['a', '<', 'b', '?', '.', 'm', 'k', 'v']) =
        sanitizeFilename ['a', '<', 'b', '?', '.', 'm', 'k', 'v'] :=
  C9_sanitize_clean_idempotent ['a', '<', 'b', '?', '.', 'm', 'k', 'v']

/-! ## Reaction Matcher: `_normalize_emoji` (lines 224-227) and
`_has_my_reaction` (lines 229-258)

```python
def _normalize_emoji(self, emoji):
    return emoji.replace('️', '')

def _has_my_reaction(self, reactions, emoji):
    try:
        if not reactions or not reactions.results:
            return False
        normalized_target = self._normalize_emoji(emoji)
        for reaction in reactions.results:
            if hasattr(reaction.reaction, 'emoticon'):
                if self._normalize_emoji(reaction.reaction.emoticon) == normalized_target:
                    if hasattr(reaction, 'chosen_order') and reaction.chosen_order is not None:
                        return True
        return False
    except Exception:
        return False
```

`hasattr(reaction.reaction, 'emoticon')` (absent for custom-emoji
reactions) is modelled as `Option`; `chosen_order` (an int when the
observing account reacted, `None` otherwise) as `Option Int`. The
function is total in the embedding, matching the code's catch-all
`except` that turns any error into `False` (never throws).
-/

/-- `_normalize_emoji`: remove every occurrence of U+FE0F
(variation selector-16). -/
def normalizeEmoji (emoji : List Char) : List Char :=
  emoji.filter (fun c => c ≠ '\uFE0F')

/-- One element of `reactions.results`: a reaction count entry. -/
structure ReactionEntry where
  emoticon : Option (List Char)
  chosen_order : Option Int
  deriving DecidableEq

/-- The `reactions` snapshot object (`MessageReactions.results`). -/
structure ReactionSnapshot where
  results : List ReactionEntry
  deriving DecidableEq

/-- `_has_my_reaction`: the snapshot itself may be `None`. -/
def hasMyReaction (reactions : Option ReactionSnapshot) (emoji : List Char) : Bool :=
  match reactions with
  | none => false
  | some rs =>
    if rs.results.isEmpty then false
    else rs.results.any fun r =>
      match r.emoticon with
      | none => false
      | some e => normalizeEmoji e == normalizeEmoji emoji && r.chosen_order.isSome

/-- C6: `hasMyReaction` is false for an absent or empty snapshot, false
when every matching entry lacks a definitive self-chosen flag, and true
exactly when some entry's normalized symbol equals the normalized target
and that entry's `chosen_order` is affirmatively set; it is a total
function (the code's catch-all handler means it never throws). -/
theorem C6_has_self_reaction (emoji : List Char) :
    hasMyReaction none emoji = false ∧
    (∀ rs : ReactionSnapshot, rs.results = [] → hasMyReaction (some rs) emoji = false) ∧
    (∀ rs : ReactionSnapshot,
      (∀ r ∈ rs.results, r.chosen_order = none) →
        hasMyReaction (some rs) emoji = false) ∧
    (∀ rs : ReactionSnapshot,
      hasMyReaction (some rs) emoji = true ↔
        ∃ r ∈ rs.results, ∃ e, r.emoticon = some e ∧
          normalizeEmoji e = normalizeEmoji emoji ∧ r.chosen_order.isSome = true) := by
  have hiff : ∀ rs : ReactionSnapshot,
      hasMyReaction (some rs) emoji = true ↔
        ∃ r ∈ rs.results, ∃ e, r.emoticon = some e ∧
          normalizeEmoji e = normalizeEmoji emoji ∧ r.chosen_order.isSome = true := by
    intro rs
    constructor
    · intro h
      simp only [hasMyReaction] at h
      by_cases hemp : rs.results.isEmpty
      · rw [if_pos hemp] at h
        exact absurd h (by simp)
      · rw [if_neg hemp] at h
        obtain ⟨r, hr, hp⟩ := List.any_eq_true.mp h
        cases he : r.emoticon with
        | none => rw [he] at hp; exact absurd hp (by simp)
        | some e =>
          rw [he] at hp
          simp only [Bool.and_eq_true, beq_iff_eq] at hp
          exact ⟨r, hr, e, he, hp.1, hp.2⟩
    · rintro ⟨r, hr, e, he, heq, hord⟩
      simp only [hasMyReaction]
      have hemp : rs.results.isEmpty = false := by
        cases hres : rs.results with
        | nil => rw [hres] at hr; exact absurd hr (List.not_mem_nil r)
        | cons a l => simp
      rw [hemp]
      simp only [Bool.false_eq_true, if_false]
      exact List.any_eq_true.mpr ⟨r, hr, by rw [he]; simp [heq, hord]⟩
  refine ⟨rfl, ?_, ?_, hiff⟩
  · intro rs hres
    simp [hasMyReaction, hres]
  · intro rs hord
    cases h : hasMyReaction (some rs) emoji with
    | false => rfl
    | true =>
      obtain ⟨r, hr, _, _, _, hsome⟩ := (hiff rs).mp h
      rw [hord r hr] at hsome
      exact absurd hsome (by simp)

/-- C6 witness: concrete snapshots; `['h']` stands in for the emoji
symbol. A matching entry with `chosen_order = some 0` is found; an empty
snapshot and a matching entry with `chosen_order = none` are not. -/
theorem C6_has_self_reaction_witness :
    hasMyReaction (some ⟨[]⟩) ['h'] = false ∧
    hasMyReaction (some ⟨[⟨some ['h'], none⟩]⟩) ['h'] = false ∧
    hasMyReaction (some ⟨[⟨some ['h'], some 0⟩]⟩) ['h'] = true := by
  refine ⟨(C6_has_self_reaction ['h']).2.1 ⟨[]⟩ rfl, ?_, ?_⟩
  · exact (C6_has_self_reaction ['h']).2.2.1 ⟨[⟨some ['h'], none⟩]⟩
      (by intro r hr; simp only [List.mem_singleton] at hr; rw [hr])
  · exact ((C6_has_self_reaction ['h']).2.2.2 ⟨[⟨some ['h'], some 0⟩]⟩).mpr
      ⟨⟨some ['h'], some 0⟩, by simp, ['h'], rfl, rfl, rfl⟩

/-! ## Chat Scope Filter (reaction_handler, lines 497-516)

```python
if self.monitored_chats:
    chat_id = getattr(chat, 'id', None)
    chat_username = getattr(chat, 'username', None)
    should_monitor = False
    for monitored in self.monitored_chats:
        if monitored.startswith('@') and chat_username:
            if monitored[1:] == chat_username:
                should_monitor = True
                break
        elif monitored.lstrip('-').isdigit():
            if str(chat_id) == monitored or str(chat_id) == monitored.lstrip('-'):
                should_monitor = True
                break
    if not should_monitor:
        return
```
-/

/-- Python truthiness of `chat_username` (`None` and `''` are falsy). -/
def usernameTruthy : Option (List Char) → Bool
  | none => false
  | some u => !u.isEmpty

/-- `str(chat_id)` where `chat_id = getattr(chat, 'id', None)`. -/
def chatIdStr : Option Int → List Char
  | none => ['N', 'o', 'n', 'e']
  | some i => intToStr i

/-- One iteration of the allow-list loop (whether this entry matches). -/
def monitoredEntryMatches (m : List Char) (chat_id : Option Int)
    (chat_username : Option (List Char)) : Bool :=
  if m.head? = some '@' && usernameTruthy chat_username then
    m.drop 1 == chat_username.getD []
  else if isDigitStr (lstripMinus m) then
    chatIdStr chat_id == m || chatIdStr chat_id == lstripMinus m
  else false

/-- The scope decision of `reaction_handler`: an empty allow-list means
every chat is monitored, otherwise some entry must match. -/
def inScope (monitored_chats : List (List Char)) (chat_id : Option Int)
    (chat_username : Option (List Char)) : Bool :=
  if monitored_chats.isEmpty then true
  else monitored_chats.any fun m => monitoredEntryMatches m chat_id chat_username

/-- The scope filter as claim C5 words it: a numeric entry matches when
both the raw and the de-prefixed (minus-stripped) form of the entry
agree with either the raw or the de-prefixed form of the chat
identifier. -/
def inScopeSpecC5 (monitored_chats : List (List Char)) (chat_id : Option Int)
    (chat_username : Option (List Char)) : Bool :=
  if monitored_chats.isEmpty then true
  else monitored_chats.any fun m =>
    (m.head? = some '@' && usernameTruthy chat_username &&
      m.drop 1 == chat_username.getD []) ||
    (isDigitStr (lstripMinus m) &&
      (m == chatIdStr chat_id || lstripMinus m == chatIdStr chat_id ||
       m == lstripMinus (chatIdStr chat_id) ||
       lstripMinus m == lstripMinus (chatIdStr chat_id)))

/-- The scope filter as forced by the code: the numeric entry is tried
raw and minus-stripped, but only against the raw chat identifier string
(the chat identifier itself is never de-prefixed). -/
def inScopeAmendedC5 (monitored_chats : List (List Char)) (chat_id : Option Int)
    (chat_username : Option (List Char)) : Bool :=
  if monitored_chats.isEmpty then true
  else monitored_chats.any fun m =>
    if m.head? = some '@' && usernameTruthy chat_username then
      m.drop 1 == chat_username.getD []
    else
      isDigitStr (lstripMinus m) &&
        (chatIdStr chat_id == m || chatIdStr chat_id == lstripMinus m)

/-- C5 counterexample: allow-list entry `"1001234"` against chat id
`-1001234`. Claim C5 would de-prefix the chat identifier and accept;
the code compares only against the raw `"-1001234"` and rejects. -/
theorem C5_counterexample :
    inScope [['1', '0', '0', '1', '2', '3', '4']] (some (-1001234)) none = false ∧
    inScopeSpecC5 [['1', '0', '0', '1', '2', '3', '4']] (some (-1001234)) none = true := by
  constructor <;> decide

/-- C5 amended: empty allow-list monitors everything; otherwise a chat
is in scope iff some entry is an `@username` form equal to the chat's
(non-empty) username, or a numeric form whose raw or minus-stripped text
equals the raw chat identifier string — the chat identifier itself is
never de-prefixed. -/
theorem C5_scope_filter_amended (monitored_chats : List (List Char))
    (chat_id : Option Int) (chat_username : Option (List Char)) :
    inScope monitored_chats chat_id chat_username =
      inScopeAmendedC5 monitored_chats chat_id chat_username := by
  unfold inScope inScopeAmendedC5
  by_cases hemp : monitored_chats.isEmpty
  · rw [if_pos hemp, if_pos hemp]
  · rw [if_neg hemp, if_neg hemp]
    have hfun : ∀ m : List Char,
        monitoredEntryMatches m chat_id chat_username =
          (if m.head? = some '@' && usernameTruthy chat_username then
            m.drop 1 == chat_username.getD []
          else
            isDigitStr (lstripMinus m) &&
              (chatIdStr chat_id == m || chatIdStr chat_id == lstripMinus m)) := by
      intro m
      unfold monitoredEntryMatches
      by_cases hat : (m.head? = some '@' && usernameTruthy chat_username) = true
      · rw [if_pos hat, if_pos hat]
      · rw [if_neg hat, if_neg hat]
        by_cases hd : isDigitStr (lstripMinus m) = true
        · rw [if_pos hd]
          simp [hd]
        · rw [if_neg hd]
          simp [hd]
    exact congrArg (List.any monitored_chats) (funext hfun)

/-! ## Link Extractor (`link_handler`, lines 414-468)

```python
public_pattern = r'https?://t\.me/([^/c][^/]*)/(\d+)'
private_pattern = r'https?://t\.me/c/(\d+)/(\d+)'
public_matches = re.findall(public_pattern, event.message.text)
private_matches = re.findall(private_pattern, event.message.text)
...
for channel_username, msg_id in public_matches:
    target_channel = await self.client.get_entity(channel_username)
    target_message = await self.client.get_messages(target_channel, ids=int(msg_id))
...
for channel_id, msg_id in private_matches:
    full_channel_id = -100 + int(channel_id) if not channel_id.startswith('-') else int(channel_id)
    target_channel = await self.client.get_entity(full_channel_id)
    target_message = await self.client.get_messages(target_channel, ids=int(msg_id))
```

The two patterns contain no construct needing backtracking beyond the
optional `s` (the `[^/]*` and `\d+` repetitions are bounded by the
mandatory `/` delimiters), so the matchers below are deterministic
translations of the regexes; `re.findall` scans left to right,
advancing one character on failure and past each non-overlapping match.
-/

/-- Match a literal character sequence at the head, returning the rest. -/
def matchLit : List Char → List Char → Option (List Char)
  | [], l => some l
  | _ :: _, [] => none
  | p :: ps, c :: cs => if c = p then matchLit ps cs else none

/-- The characters of `'://t.me/'`. -/
def schemeTail : List Char := [':', '/', '/', 't', '.', 'm', 'e', '/']

/-- `https?` followed by `tail`: the greedy optional `s` first. -/
def matchSchemeTme (tail : List Char) (l : List Char) : Option (List Char) :=
  match matchLit ('h' :: 't' :: 't' :: 'p' :: 's' :: tail) l with
  | some r => some r
  | none => matchLit ('h' :: 't' :: 't' :: 'p' :: tail) l

/-- The public pattern `https?://t\.me/([^/c][^/]*)/(\d+)` matched at
the head of `l`: returns the two captured groups and the rest. -/
def matchPublicAt (l : List Char) :
    Option ((List Char × List Char) × List Char) :=
  match matchSchemeTme schemeTail l with
  | none => none
  | some r2 =>
    match r2 with
    | [] => none
    | c1 :: rest =>
      if c1 = '/' || c1 = 'c' then none
      else
        let nameTail := rest.takeWhile (fun c => c ≠ '/')
        match rest.dropWhile (fun c => c ≠ '/') with
        | [] => none
        | slash :: r4 =>
          if slash = '/' then
            let digits := r4.takeWhile isAsciiDigit
            if digits.isEmpty then none
            else some ((c1 :: nameTail, digits), r4.dropWhile isAsciiDigit)
          else none

/-- The private pattern `https?://t\.me/c/(\d+)/(\d+)` matched at the
head of `l`. -/
def matchPrivateAt (l : List Char) :
    Option ((List Char × List Char) × List Char) :=
  match matchSchemeTme (schemeTail ++ ['c', '/']) l with
  | none => none
  | some r2 =>
    let d1 := r2.takeWhile isAsciiDigit
    if d1.isEmpty then none
    else
      match r2.dropWhile isAsciiDigit with
      | [] => none
      | slash :: r4 =>
        if slash = '/' then
          let d2 := r4.takeWhile isAsciiDigit
          if d2.isEmpty then none
          else some ((d1, d2), r4.dropWhile isAsciiDigit)
        else none

/-- `re.findall`: leftmost scan, non-overlapping matches, advancing one
character on failure. Fuelled so that it is structurally recursive; a
fuel of the input length suffices since every match consumes at least
the scheme. -/
def findallAux (f : List Char → Option ((List Char × List Char) × List Char)) :
    Nat → List Char → List (List Char × List Char)
  | 0, _ => []
  | _ + 1, [] => []
  | fuel + 1, c :: cs =>
    match f (c :: cs) with
    | some (m, rest) => m :: findallAux f fuel rest
    | none => findallAux f fuel cs

/-- `re.findall(public_pattern, text)`. -/
def publicMatches (text : List Char) : List (List Char × List Char) :=
  findallAux matchPublicAt text.length text

/-- `re.findall(private_pattern, text)`. -/
def privateMatches (text : List Char) : List (List Char × List Char) :=
  findallAux matchPrivateAt text.length text

/-- Python `s.startswith('-')`. -/
def startsWithMinus (s : List Char) : Bool := s.head? = some '-'

/-- Python `int(s)` on an optionally minus-signed digit string. -/
def pyInt (s : List Char) : Int :=
  if startsWithMinus s then -(parseNat (s.drop 1) : Int) else (parseNat s : Int)

/-- Line 454: `full_channel_id = -100 + int(channel_id) if not
channel_id.startswith('-') else int(channel_id)`. -/
def fullChannelId (channel_id : List Char) : Int :=
  if !startsWithMinus channel_id then -100 + pyInt channel_id
  else pyInt channel_id

/-- One remote-fetch attempt of the link handler: a `get_entity` +
`get_messages` pair keyed by the resolved chat reference and message id. -/
inductive FetchAttempt where
  | publicLink (channel : List Char) (msg_id : Nat)
  | privateLink (channel_ref : Int) (msg_id : Nat)
  deriving DecidableEq

/-- The remote-fetch attempts the link handler performs for a message
text: one per public match, then one per private match (each loop
iteration attempts its fetch regardless of failures of the others). -/
def linkFetchAttempts (text : List Char) : List FetchAttempt :=
  (publicMatches text).map (fun p => .publicLink p.1 (parseNat p.2)) ++
    (privateMatches text).map (fun p => .privateLink (fullChannelId p.1) (parseNat p.2))

/-- C2: a message containing `https://t.me/channelname/42` yields NO
remote-fetch attempt at all — the character class `[^/c]` in the public
pattern rejects every channel name starting with `c`, including the
`channelname` example in the code's own comment. A name not starting
with `c` (`dogs`) does yield exactly one attempt, locating the defect in
the first-character class. -/
theorem C2_channelname_link_no_fetch :
    linkFetchAttempts "https://t.me/channelname/42".data = [] ∧
    publicMatches "https://t.me/channelname/42".data = [] ∧
    privateMatches "https://t.me/channelname/42".data = [] ∧
    linkFetchAttempts "https://t.me/dogs/42".data =
      [FetchAttempt.publicLink ['d', 'o', 'g', 's'] 42] := by
  refine ⟨?_, ?_, ?_, ?_⟩ <;> decide

/-- C10: for a private-form match whose captured internal id does not
begin with `'-'`, the chat reference passed to `get_entity` is the
arithmetic sum `-100 + int(N)` — e.g. `N = "1234567890"` gives
`1234567790` — and not the marker-prefixed id `int("-100" + N)`. -/
theorem C10_private_link_chat_ref :
    (∀ s : List Char, startsWithMinus s = false →
      fullChannelId s = -100 + (parseNat s : Int)) ∧
    fullChannelId "1234567890".data = 1234567790 ∧
    fullChannelId "1234567890".data ≠ pyInt "-1001234567890".data := by
  refine ⟨?_, by decide, by decide⟩
  intro s h
  simp [fullChannelId, pyInt, h]

/-- C10 witness: the general part applied at the captured id `"42"`. -/
theorem C10_private_link_witness :
    fullChannelId ['4', '2'] = -100 + (parseNat ['4', '2'] : Int) :=
  C10_private_link_chat_ref.1 ['4', '2'] rfl

/-! ## Download Dispatcher: `_download_single_media` (lines 286-293) and
`_do_download` (lines 295-377)

```python
async def _download_single_media(self, message, media, chat_title):
    async with self.download_semaphore:
        self.active_downloads += 1
        try:
            return await self._do_download(message, media, chat_title)
        finally:
            self.active_downloads -= 1
```

One task's lifecycle is embedded as a pure function returning its result
together with the ordered list of externally observable actions it
performs. The `datetime.now()` timestamp is a parameter; the state of
the destination path is `existing : Option Nat` (the on-disk size when
the file exists); the outcome of the external `download_media` transfer
call is a parameter (`written size` or an exception, the latter caught
by `_do_download`'s `except` which returns `False`). -/

/-- Observable actions of one download task, in execution order. -/
inductive Ev where
  | acquire | incGauge | deleteFile | notifyStart | transferCall
  | notifyFail | notifySuccess | sonarrImport | decGauge | release
  deriving DecidableEq

/-- Media payload of a fetched message. A document's attribute list
holds `some name` for an attribute with `file_name`, `none` otherwise. -/
inductive Media where
  | document (attributes : List (Option (List Char))) (mime_type : List Char) (size : Nat)
  | photo
  | unsupported
  deriving DecidableEq

/-- `mime_type.split('/')[-1]`. -/
def lastSlashComponent (s : List Char) : List Char :=
  (s.reverse.takeWhile (fun c => c ≠ '/')).reverse

/-- `f"telegram_file_{timestamp}.{ext}"`. -/
def genDocName (mime timestamp : List Char) : List Char :=
  "telegram_file_".data ++ timestamp ++ '.' :: lastSlashComponent mime

/-- `f"telegram_photo_{timestamp}.jpg"`. -/
def genPhotoName (timestamp : List Char) : List Char :=
  "telegram_photo_".data ++ timestamp ++ ".jpg".data

/-- Lines 299-325: resolve the media payload to `(filename, file_size)`,
or `none` for an unsupported media type. The first attribute carrying
`file_name` wins; a falsy (absent or empty) name is synthesized from the
mime type; a photo has unknown size `0`. -/
def resolveFileInfo (media : Media) (timestamp : List Char) :
    Option (List Char × Nat) :=
  match media with
  | .document attrs mime size =>
    let filename :=
      match attrs.findSome? id with
      | some f => if f.isEmpty then genDocName mime timestamp else f
      | none => genDocName mime timestamp
    some (filename, size)
  | .photo => some (genPhotoName timestamp, 0)
  | .unsupported => none

/-- `pathlib.Path(name).suffix`: the extension of the final component —
empty when there is no dot, the only dot leads the name, or the dot is
final. -/
def pySuffix (name : List Char) : List Char :=
  let tail := (name.reverse.takeWhile (fun c => c ≠ '.')).reverse
  if tail.length + 2 ≤ name.length && !tail.isEmpty then '.' :: tail else []

/-- `str.lower` (ASCII, as the extensions here are). -/
def toLowerStr (s : List Char) : List Char := s.map Char.toLower

/-- The configuration surface the dispatcher reads. -/
structure Cfg where
  max_file_size : Nat
  file_extensions : List (List Char)
  sonarr_enabled : Bool
  deriving DecidableEq

/-- `_should_download` (lines 114-128). -/
def shouldDownload (cfg : Cfg) (filename : List Char) (file_size : Nat) : Bool :=
  if decide (0 < cfg.max_file_size) && decide (cfg.max_file_size < file_size) then false
  else if !cfg.file_extensions.isEmpty &&
      !(cfg.file_extensions.contains (toLowerStr (pySuffix filename))) then false
  else true

/-- Line 370's video container extensions. -/
def videoExts : List (List Char) :=
  [".mkv".data, ".mp4".data, ".avi".data, ".mov".data,
   ".wmv".data, ".flv".data, ".webm".data, ".m4v".data]

/-- Result of the external transfer call. -/
inductive TransferOutcome where
  | written (actual_size : Nat)
  | raised
  deriving DecidableEq

/-- Lines 348-373: notification, transfer call, verification against the
expected size, success side effects. An exception from the transfer is
caught by the handler at line 375 and becomes a `False` result. -/
def transferEvents (cfg : Cfg) (filename : List Char) (file_size : Nat)
    (outcome : TransferOutcome) : Bool × List Ev :=
  match outcome with
  | .raised => (false, [.notifyStart, .transferCall])
  | .written actual =>
    if decide (0 < file_size) && decide (actual ≠ file_size) then
      (false, [.notifyStart, .transferCall, .notifyFail])
    else
      (true, [.notifyStart, .transferCall, .notifySuccess] ++
        (if cfg.sonarr_enabled &&
            videoExts.contains (toLowerStr (pySuffix filename))
         then [.sonarrImport] else []))

/-- `_do_download`: resolution, sanitization, filter, destination-exists
check, then (if still needed) the transfer. -/
def doDownload (cfg : Cfg) (media : Media) (timestamp : List Char)
    (existing : Option Nat) (outcome : TransferOutcome) : Bool × List Ev :=
  match resolveFileInfo media timestamp with
  | none => (false, [])
  | some (fname0, file_size) =>
    let filename := sanitizeFilename fname0
    if !shouldDownload cfg filename file_size then (false, [])
    else
      match existing with
      | some existing_size =>
        if file_size = 0 || existing_size = file_size then (true, [])
        else
          let p := transferEvents cfg filename file_size outcome
          (p.1, .deleteFile :: p.2)
      | none => transferEvents cfg filename file_size outcome

/-- `_download_single_media`: acquire the semaphore slot, increment the
gauge (no suspension point between the two), run `_do_download`, then —
in `finally`/`__aexit__`, again without a suspension point between them
— decrement the gauge and release the slot on every exit path. -/
def downloadSingleMedia (cfg : Cfg) (media : Media) (timestamp : List Char)
    (existing : Option Nat) (outcome : TransferOutcome) : Bool × List Ev :=
  let p := doDownload cfg media timestamp existing outcome
  (p.1, .acquire :: .incGauge :: p.2 ++ [.decGauge, .release])

/-- `download_media` (lines 260-284): a message with no media returns
immediately, before `_download_single_media` is ever called. -/
def downloadMedia (cfg : Cfg) (media : Option Media) (timestamp : List Char)
    (existing : Option Nat) (outcome : TransferOutcome) : Bool × List Ev :=
  match media with
  | none => (false, [])
  | some m => downloadSingleMedia cfg m timestamp existing outcome

/-- `transferEvents` always begins with the start notification and the
transfer call, and never touches slot or gauge. -/
theorem transferEvents_shape (cfg : Cfg) (f : List Char) (s : Nat)
    (o : TransferOutcome) :
    (∃ rest, (transferEvents cfg f s o).2 =
      Ev.notifyStart :: Ev.transferCall :: rest) ∧
    Ev.acquire ∉ (transferEvents cfg f s o).2 ∧
    Ev.release ∉ (transferEvents cfg f s o).2 ∧
    Ev.incGauge ∉ (transferEvents cfg f s o).2 ∧
    Ev.decGauge ∉ (transferEvents cfg f s o).2 := by
  cases o with
  | raised => refine ⟨⟨[], rfl⟩, ?_, ?_, ?_, ?_⟩ <;> simp [transferEvents]
  | written actual =>
    simp only [transferEvents]
    split_ifs <;>
      refine ⟨⟨_, rfl⟩, ?_, ?_, ?_, ?_⟩ <;> simp

/-- C4: when the destination already exists — if the expected size is
unknown (`0`, as for photos) or equals the on-disk size, the item
reports success with no transfer call and no deletion; if the expected
size is known and differs, the existing file is deleted and a transfer
call follows. -/
theorem C4_existing_destination (cfg : Cfg) (media : Media)
    (ts fname0 : List Char) (file_size existing_size : Nat)
    (outcome : TransferOutcome)
    (hres : resolveFileInfo media ts = some (fname0, file_size))
    (hok : shouldDownload cfg (sanitizeFilename fname0) file_size = true) :
    ((file_size = 0 ∨ existing_size = file_size) →
      (doDownload cfg media ts (some existing_size) outcome).1 = true ∧
      Ev.transferCall ∉ (doDownload cfg media ts (some existing_size) outcome).2 ∧
      Ev.deleteFile ∉ (doDownload cfg media ts (some existing_size) outcome).2) ∧
    (file_size ≠ 0 → existing_size ≠ file_size →
      ∃ rest, (doDownload cfg media ts (some existing_size) outcome).2 =
        Ev.deleteFile :: Ev.notifyStart :: Ev.transferCall :: rest) := by
  have hunfold : doDownload cfg media ts (some existing_size) outcome =
      (if file_size = 0 || existing_size = file_size then (true, ([] : List Ev))
       else
        let p := transferEvents cfg (sanitizeFilename fname0) file_size outcome
        (p.1, .deleteFile :: p.2)) := by
    simp only [doDownload, hres, hok, Bool.not_true, Bool.false_eq_true, if_false]
  constructor
  · intro hdone
    have hcond : (file_size = 0 || existing_size = file_size) = true := by
      rcases hdone with h | h <;> simp [h]
    rw [hunfold, if_pos hcond]
    exact ⟨rfl, by simp, by simp⟩
  · intro h0 hne
    have hcond : (file_size = 0 || existing_size = file_size) = false := by
      simp [h0, hne]
    rw [hunfold, if_neg (by simp [hcond])]
    obtain ⟨⟨rest, hrest⟩, -⟩ :=
      transferEvents_shape cfg (sanitizeFilename fname0) file_size outcome
    exact ⟨rest, by simp [hrest]⟩

/-- C4 witness: a 100-byte document named `a.mkv`, destination existing
with matching size 100 (no transfer) and with size 37 (delete, then
transfer). -/
theorem C4_existing_destination_witness :
    ((100 = 0 ∨ 100 = 100) →
      (doDownload ⟨0, [], false⟩
        (.document [some "a.mkv".data] "video/mkv".data 100) [] (some 100)
        (.written 100)).1 = true ∧
      Ev.transferCall ∉ (doDownload ⟨0, [], false⟩
        (.document [some "a.mkv".data] "video/mkv".data 100) [] (some 100)
        (.written 100)).2 ∧
      Ev.deleteFile ∉ (doDownload ⟨0, [], false⟩
        (.document [some "a.mkv".data] "video/mkv".data 100) [] (some 100)
        (.written 100)).2) ∧
    ((100 : Nat) ≠ 0 → (37 : Nat) ≠ 100 →
      ∃ rest, (doDownload ⟨0, [], false⟩
        (.document [some "a.mkv".data] "video/mkv".data 100) [] (some 37)
        (.written 100)).2 =
          Ev.deleteFile :: Ev.notifyStart :: Ev.transferCall :: rest) :=
  ⟨(C4_existing_destination ⟨0, [], false⟩
      (.document [some "a.mkv".data] "video/mkv".data 100) [] "a.mkv".data
      100 100 (.written 100) (by decide) (by decide)).1,
   (C4_existing_destination ⟨0, [], false⟩
      (.document [some "a.mkv".data] "video/mkv".data 100) [] "a.mkv".data
      100 37 (.written 100) (by decide) (by decide)).2⟩

/-- C8 counterexample: a document rejected by the extension filter
(`a.txt` against an allow-list of `.mkv`). The claim says such an item
terminates without ever acquiring a concurrency slot; in the code the
slot is acquired (and the gauge incremented) before the filter runs, so
the task's trace still contains the acquire. -/
theorem C8_counterexample :
    (downloadSingleMedia ⟨0, [".mkv".data], false⟩
      (.document [some "a.txt".data] "text/plain".data 5) [] none
      (.written 5)).1 = false ∧
    Ev.transferCall ∉ (downloadSingleMedia ⟨0, [".mkv".data], false⟩
      (.document [some "a.txt".data] "text/plain".data 5) [] none
      (.written 5)).2 ∧
    Ev.acquire ∈ (downloadSingleMedia ⟨0, [".mkv".data], false⟩
      (.document [some "a.txt".data] "text/plain".data 5) [] none
      (.written 5)).2 := by
  refine ⟨?_, ?_, ?_⟩ <;> decide

/-- `_do_download` itself never touches the slot or the gauge. -/
theorem doDownload_no_slot_events (cfg : Cfg) (media : Media)
    (ts : List Char) (existing : Option Nat) (outcome : TransferOutcome) :
    Ev.acquire ∉ (doDownload cfg media ts existing outcome).2 ∧
    Ev.release ∉ (doDownload cfg media ts existing outcome).2 ∧
    Ev.incGauge ∉ (doDownload cfg media ts existing outcome).2 ∧
    Ev.decGauge ∉ (doDownload cfg media ts existing outcome).2 := by
  rcases hres : resolveFileInfo media ts with - | ⟨fname0, file_size⟩
  · simp [doDownload, hres]
  · obtain ⟨-, ha, hr, hi, hd⟩ :=
      transferEvents_shape cfg (sanitizeFilename fname0) file_size outcome
    simp only [doDownload, hres]
    split
    · exact ⟨by simp, by simp, by simp, by simp⟩
    · split
      · split
        · exact ⟨by simp, by simp, by simp, by simp⟩
        · refine ⟨?_, ?_, ?_, ?_⟩ <;> simp only [List.mem_cons, not_or] <;>
            exact ⟨by decide, by assumption⟩
      · exact ⟨ha, hr, hi, hd⟩

/-- C8 amended: the per-item lifecycle checks only the presence of media
before acquiring a slot; the slot is acquired (and the gauge
incremented) first, descriptor resolution, sanitization, the filter and
the destination-exists check all run while holding the slot, and the
gauge decrement and slot release are the final two actions on every exit
path. An item that fails resolution or is rejected by the filter
therefore still acquires and releases a slot; only a message with no
media terminates without acquiring one. -/
theorem C8_amended_slot_first (cfg : Cfg) (media : Media) (ts : List Char)
    (existing : Option Nat) (outcome : TransferOutcome) :
    (downloadSingleMedia cfg media ts existing outcome).2 =
      Ev.acquire :: Ev.incGauge ::
        (doDownload cfg media ts existing outcome).2 ++ [Ev.decGauge, Ev.release] ∧
    Ev.acquire ∉ (doDownload cfg media ts existing outcome).2 ∧
    Ev.release ∉ (doDownload cfg media ts existing outcome).2 ∧
    downloadMedia cfg none ts existing outcome = (false, []) := by
  obtain ⟨ha, hr, -, -⟩ := doDownload_no_slot_events cfg media ts existing outcome
  exact ⟨rfl, ha, hr, rfl⟩

/-! ## Bounded concurrency (C3)

`asyncio.Semaphore(max_concurrent)` with the gauge `active_downloads`.
Tasks run on a single-threaded cooperative scheduler: control moves only
at `await` points. In `_download_single_media` the semaphore acquire is
the only suspension before `active_downloads += 1`, so acquire+increment
is one atomic step; symmetrically the `finally` decrement and the
`__aexit__` release have no suspension between them and form the other
atomic step. The transfer performed while holding the slot is irrelevant
to the bound and is subsumed in the time between the two steps. -/

/-- Program counter of one download task with respect to the slot. -/
inductive TPc where
  | waiting | holding | finished
  deriving DecidableEq

/-- Global state: free permits of the semaphore, the
`active_downloads` gauge (a Python int), and the per-task counters. -/
structure SemState where
  avail : Nat
  gauge : Int
  tasks : List TPc
  deriving DecidableEq

/-- Interleaved execution steps. `acquire` fires only when a permit is
free (`avail = a + 1`); `finish` models the `finally`-decrement plus
release that every exit path (success, verification failure, exception)
runs. -/
inductive SemStep : SemState → SemState → Prop
  | acquire (a : Nat) (g : Int) (l1 l2 : List TPc) :
      SemStep ⟨a + 1, g, l1 ++ TPc.waiting :: l2⟩
        ⟨a, g + 1, l1 ++ TPc.holding :: l2⟩
  | finish (a : Nat) (g : Int) (l1 l2 : List TPc) :
      SemStep ⟨a, g, l1 ++ TPc.holding :: l2⟩
        ⟨a + 1, g - 1, l1 ++ TPc.finished :: l2⟩

/-- States reachable from `cap` free permits, gauge `0`, and `n` spawned
tasks none of which has started. -/
inductive SemReach (cap n : Nat) : SemState → Prop
  | init : SemReach cap n ⟨cap, 0, List.replicate n TPc.waiting⟩
  | step {s s' : SemState} : SemReach cap n s → SemStep s s' → SemReach cap n s'

/-- Number of tasks currently holding a slot. -/
def countHolding (l : List TPc) : Nat := l.countP (fun t => t = TPc.holding)

theorem countHolding_append (l1 l2 : List TPc) :
    countHolding (l1 ++ l2) = countHolding l1 + countHolding l2 := by
  simp [countHolding, List.countP_append]

theorem semReach_invariant {cap n : Nat} {s : SemState}
    (h : SemReach cap n s) :
    s.avail + countHolding s.tasks = cap ∧ s.gauge = (countHolding s.tasks : Int) := by
  induction h with
  | init =>
    have hzero : countHolding (List.replicate n TPc.waiting) = 0 := by
      simp [countHolding, List.countP_eq_zero]
    exact ⟨by simp [hzero], by simp [hzero]⟩
  | step _ hstep ih =>
    obtain ⟨ih1, ih2⟩ := ih
    cases hstep with
    | acquire a g l1 l2 =>
      simp [countHolding_append, countHolding, List.countP_cons] at ih1 ih2 ⊢
      exact ⟨by omega, by omega⟩
    | finish a g l1 l2 =>
      simp [countHolding_append, countHolding, List.countP_cons] at ih1 ih2 ⊢
      exact ⟨by omega, by omega⟩

/-- C3: in every reachable state of the bounded-concurrency system the
`active_downloads` gauge never exceeds the configured maximum number of
concurrent transfers; and in the single-task lifecycle the slot is held
from before the transfer until the unconditional gauge-decrement and
release that end the trace on every exit path (success, verification
failure, exception). -/
theorem C3_gauge_bounded {cap n : Nat} {s : SemState}
    (h : SemReach cap n s) :
    s.gauge ≤ (cap : Int) ∧
    (∀ (cfg : Cfg) (media : Media) (ts : List Char) (existing : Option Nat)
      (outcome : TransferOutcome),
      (downloadSingleMedia cfg media ts existing outcome).2 =
        Ev.acquire :: Ev.incGauge ::
          (doDownload cfg media ts existing outcome).2 ++
            [Ev.decGauge, Ev.release] ∧
      Ev.decGauge ∉ (doDownload cfg media ts existing outcome).2 ∧
      Ev.release ∉ (doDownload cfg media ts existing outcome).2) := by
  obtain ⟨h1, h2⟩ := semReach_invariant h
  constructor
  · have : countHolding s.tasks ≤ cap := by omega
    rw [h2]
    exact_mod_cast this
  · intro cfg media ts existing outcome
    obtain ⟨-, hr, -, hd⟩ := doDownload_no_slot_events cfg media ts existing outcome
    exact ⟨rfl, hd, hr⟩

/-- C3 witness: `cap = 2`, five spawned tasks, two of them holding; the
gauge is `2 ≤ 2`. The reachable state is exhibited by two explicit
acquire steps from the initial state. -/
theorem C3_gauge_bounded_witness :
    (SemState.mk 0 2 [TPc.holding, TPc.holding, TPc.waiting, TPc.waiting, TPc.waiting]).gauge ≤
      ((2 : Nat) : Int) := by
  have r0 : SemReach 2 5 ⟨2, 0, List.replicate 5 TPc.waiting⟩ := SemReach.init
  have s1 : SemStep ⟨2, 0, List.replicate 5 TPc.waiting⟩
      ⟨1, 1, [TPc.holding, TPc.waiting, TPc.waiting, TPc.waiting, TPc.waiting]⟩ := by
    have := SemStep.acquire 1 0 []
      [TPc.waiting, TPc.waiting, TPc.waiting, TPc.waiting]
    simpa using this
  have s2 : SemStep ⟨1, 1, [TPc.holding, TPc.waiting, TPc.waiting, TPc.waiting, TPc.waiting]⟩
      ⟨0, 2, [TPc.holding, TPc.holding, TPc.waiting, TPc.waiting, TPc.waiting]⟩ := by
    have := SemStep.acquire 0 1 [TPc.holding]
      [TPc.waiting, TPc.waiting, TPc.waiting]
    simpa using this
  exact (C3_gauge_bounded ((r0.step s1).step s2)).1

/-! ## Media Resolver: album resolution and per-member dispatch
(reaction_handler, lines 537-581)

```python
min_id = max(1, event.msg_id - 50)
max_id = event.msg_id + 50
grouped_messages = []
async for msg in self.client.iter_messages(chat, min_id=min_id, max_id=max_id, limit=None):
    if hasattr(msg, 'grouped_id') and msg.grouped_id == message.grouped_id:
        grouped_messages.append(msg)
grouped_messages.sort(key=lambda m: m.id)
for msg in grouped_messages:
    msg_key = f"{...}_{msg.id}"
    if msg_key in self.downloaded_messages:
        continue
    self.downloaded_messages.add(msg_key)
    task = asyncio.create_task(self.download_media(msg, chat_title))
```
-/

/-- A fetched message: its id and its optional album identifier. -/
structure Msg where
  id : Nat
  grouped_id : Option Nat
  deriving DecidableEq

/-- The external client's `iter_messages(chat, min_id, max_id)`, an
excluded collaborator; modelled from the spec's interface
`fetchMessagesInRange(chatRef, minId, maxId)` ("scan messages in the id
range `[anchor_id - window, anchor_id + window]` within the same chat")
as the chat's messages with ids in the inclusive range. -/
def iterMessagesRange (chat : List Msg) (min_id max_id : Nat) : List Msg :=
  chat.filter (fun m => min_id ≤ m.id && m.id ≤ max_id)

/-- `sort(key=lambda m: m.id)` ordering. -/
def msgLe (a b : Msg) : Prop := a.id ≤ b.id

instance : DecidableRel msgLe := fun a b => Nat.decLe a.id b.id

instance : IsTotal Msg msgLe := ⟨fun a b => Nat.le_total a.id b.id⟩

instance : IsTrans Msg msgLe := ⟨fun _ _ _ => Nat.le_trans⟩

/-- Album resolution: for an anchor carrying an album identifier, the
in-window messages sharing it, sorted ascending by id; otherwise the
anchor alone (the single-file branch at line 578). -/
def resolveAlbum (chat : List Msg) (anchor : Msg) : List Msg :=
  match anchor.grouped_id with
  | none => [anchor]
  | some g =>
    let min_id := max 1 (anchor.id - 50)
    let max_id := anchor.id + 50
    List.insertionSort msgLe
      ((iterMessagesRange chat min_id max_id).filter
        (fun m => m.grouped_id == some g))

/-- `f"{channel_id}_{msg.id}"`: the dedup key. -/
def msgKey (peer : List Char) (msg_id : Nat) : List Char :=
  peer ++ '_' :: natToStr msg_id

/-- Observable actions of the orchestrator's per-member loop. -/
inductive DispatchEv where
  | insertKey (key : List Char)
  | spawnTask (msg_id : Nat)
  deriving DecidableEq

/-- One iteration of the member loop: skip if the key is in the ledger,
otherwise insert the key and then spawn the task. -/
def dispatchStep (peer : List Char)
    (acc : List (List Char) × List DispatchEv × Nat) (m : Msg) :
    List (List Char) × List DispatchEv × Nat :=
  let key := msgKey peer m.id
  if key ∈ acc.1 then acc
  else (key :: acc.1, acc.2.1 ++ [.insertKey key, .spawnTask m.id], acc.2.2 + 1)

/-- The member loop over the resolved album: final ledger, the event
sequence, and how many download tasks were spawned. -/
def dispatchGroup (peer : List Char) (msgs : List Msg)
    (ledger : List (List Char)) : List (List Char) × List DispatchEv × Nat :=
  msgs.foldl (dispatchStep peer) (ledger, [], 0)

theorem msgKey_inj (peer : List Char) {i j : Nat}
    (h : msgKey peer i = msgKey peer j) : i = j := by
  unfold msgKey at h
  have h2 := List.append_cancel_left h
  simp only [List.cons.injEq, true_and] at h2
  exact natToStr_injective h2

theorem dispatchGroup_fold (peer : List Char) (msgs : List Msg) :
    ∀ (ledger : List (List Char)) (evs0 : List DispatchEv) (n0 : Nat),
      (∀ m ∈ msgs, msgKey peer m.id ∉ ledger) →
      (msgs.map (fun m => msgKey peer m.id)).Nodup →
      msgs.foldl (dispatchStep peer) (ledger, evs0, n0) =
        ((msgs.map (fun m => msgKey peer m.id)).reverse ++ ledger,
         evs0 ++ msgs.flatMap
           (fun m => [.insertKey (msgKey peer m.id), .spawnTask m.id]),
         n0 + msgs.length) := by
  induction msgs with
  | nil => intro ledger evs0 n0 _ _; simp
  | cons m ms ih =>
    intro ledger evs0 n0 hfresh hnd
    have hm : msgKey peer m.id ∉ ledger := hfresh m (by simp)
    have hstep : dispatchStep peer (ledger, evs0, n0) m =
        (msgKey peer m.id :: ledger,
         evs0 ++ [.insertKey (msgKey peer m.id), .spawnTask m.id], n0 + 1) := by
      simp [dispatchStep, hm]
    simp only [List.foldl_cons, hstep]
    have hfresh2 : ∀ m' ∈ ms, msgKey peer m'.id ∉ (msgKey peer m.id :: ledger) := by
      intro m' hm'
      simp only [List.mem_cons, not_or]
      refine ⟨?_, hfresh m' (by simp [hm'])⟩
      simp only [List.map_cons, List.nodup_cons] at hnd
      intro heq
      exact hnd.1 (heq ▸ List.mem_map_of_mem (fun x => msgKey peer x.id) hm')
    have hnd2 : (ms.map (fun m => msgKey peer m.id)).Nodup := by
      simp only [List.map_cons, List.nodup_cons] at hnd
      exact hnd.2
    rw [ih (msgKey peer m.id :: ledger)
        (evs0 ++ [DispatchEv.insertKey (msgKey peer m.id), DispatchEv.spawnTask m.id])
        (n0 + 1) hfresh2 hnd2]
    simp only [List.map_cons, List.reverse_cons, List.flatMap_cons,
      List.append_assoc, List.length_cons, Prod.mk.injEq]
    exact ⟨by simp, trivial, by omega⟩

/-- C7: for an anchor carrying album identifier `g`, the resolved set is
exactly the chat's messages with id in `[anchor_id - 50, anchor_id + 50]`
sharing `g`, sorted ascending by id; the orchestrator then spawns
exactly one download task per member, emitting each member's key
insertion immediately before its spawn, and the claimed keys are
pairwise distinct. -/
theorem C7_resolve_album_dispatch (chat : List Msg) (anchor : Msg) (g : Nat)
    (peer : List Char) (ledger : List (List Char))
    (hg : anchor.grouped_id = some g)
    (hids : ∀ m ∈ chat, 1 ≤ m.id)
    (hnd : (chat.map Msg.id).Nodup)
    (hfresh : ∀ m ∈ resolveAlbum chat anchor, msgKey peer m.id ∉ ledger) :
    (∀ m : Msg, m ∈ resolveAlbum chat anchor ↔
      (m ∈ chat ∧ (anchor.id : Int) - 50 ≤ (m.id : Int) ∧
        (m.id : Int) ≤ (anchor.id : Int) + 50 ∧ m.grouped_id = some g)) ∧
    List.Sorted msgLe (resolveAlbum chat anchor) ∧
    (dispatchGroup peer (resolveAlbum chat anchor) ledger).2.2 =
      (resolveAlbum chat anchor).length ∧
    (dispatchGroup peer (resolveAlbum chat anchor) ledger).2.1 =
      (resolveAlbum chat anchor).flatMap
        (fun m => [.insertKey (msgKey peer m.id), .spawnTask m.id]) ∧
    ((resolveAlbum chat anchor).map (fun m => msgKey peer m.id)).Nodup := by
  have hres : resolveAlbum chat anchor =
      List.insertionSort msgLe
        ((iterMessagesRange chat (max 1 (anchor.id - 50)) (anchor.id + 50)).filter
          (fun m => m.grouped_id == some g)) := by
    simp [resolveAlbum, hg]
  have hperm : List.Perm (resolveAlbum chat anchor)
      ((iterMessagesRange chat (max 1 (anchor.id - 50)) (anchor.id + 50)).filter
        (fun m => m.grouped_id == some g)) := by
    rw [hres]; exact List.perm_insertionSort msgLe _
  have hmem : ∀ m : Msg, m ∈ resolveAlbum chat anchor ↔
      (m ∈ chat ∧ (anchor.id : Int) - 50 ≤ (m.id : Int) ∧
        (m.id : Int) ≤ (anchor.id : Int) + 50 ∧ m.grouped_id = some g) := by
    intro m
    rw [hperm.mem_iff]
    simp only [List.mem_filter, iterMessagesRange, Bool.and_eq_true,
      decide_eq_true_eq, beq_iff_eq]
    constructor
    · rintro ⟨⟨hmc, hlo, hhi⟩, hgm⟩
      have h1 := hids m hmc
      exact ⟨hmc, by omega, by omega, hgm⟩
    · rintro ⟨hmc, hlo, hhi, hgm⟩
      have h1 := hids m hmc
      exact ⟨⟨hmc, by omega, by omega⟩, hgm⟩
  have hkeysnd : ((resolveAlbum chat anchor).map (fun m => msgKey peer m.id)).Nodup := by
    have hidsnd : ((iterMessagesRange chat (max 1 (anchor.id - 50)) (anchor.id + 50)).filter
        (fun m => m.grouped_id == some g) |>.map Msg.id).Nodup := by
      apply List.Nodup.sublist _ hnd
      exact List.Sublist.map Msg.id ((List.filter_sublist _).trans (List.filter_sublist _))
    have hperm2 : List.Perm ((resolveAlbum chat anchor).map Msg.id)
        (((iterMessagesRange chat (max 1 (anchor.id - 50)) (anchor.id + 50)).filter
          (fun m => m.grouped_id == some g)).map Msg.id) := hperm.map Msg.id
    have hidsnd2 : ((resolveAlbum chat anchor).map Msg.id).Nodup :=
      (hperm2.nodup_iff).mpr hidsnd
    have : (resolveAlbum chat anchor).map (fun m => msgKey peer m.id) =
        ((resolveAlbum chat anchor).map Msg.id).map (msgKey peer) := by
      simp [List.map_map, Function.comp]
    rw [this]
    exact hidsnd2.map (fun {i j} h => msgKey_inj peer h)
  refine ⟨hmem, ?_, ?_, ?_, hkeysnd⟩
  · rw [hres]
    exact List.sorted_insertionSort msgLe _
  · rw [dispatchGroup, dispatchGroup_fold peer _ ledger [] 0 hfresh hkeysnd]
    simp
  · rw [dispatchGroup, dispatchGroup_fold peer _ ledger [] 0 hfresh hkeysnd]
    simp

/-- An example chat for the album witness: messages 10, 11, 13 share
album 7; message 12 has no album; message 70 shares the album id but
could only matter for an anchor whose window reaches it. -/
def albumChatEx : List Msg :=
  [⟨10, some 7⟩, ⟨11, some 7⟩, ⟨12, none⟩, ⟨13, some 7⟩, ⟨70, some 7⟩]

/-- C7 witness: anchor 11 with album id 7 resolves to exactly the three
siblings 10, 11, 13 in ascending order, and the orchestrator spawns
exactly 3 tasks, claiming each key before its spawn. -/
theorem C7_resolve_album_witness :
    resolveAlbum albumChatEx ⟨11, some 7⟩ =
      [⟨10, some 7⟩, ⟨11, some 7⟩, ⟨13, some 7⟩] ∧
    List.Sorted msgLe (resolveAlbum albumChatEx ⟨11, some 7⟩) ∧
    (dispatchGroup ['9'] (resolveAlbum albumChatEx ⟨11, some 7⟩) []).2.2 =
      (resolveAlbum albumChatEx ⟨11, some 7⟩).length ∧
    (dispatchGroup ['9'] (resolveAlbum albumChatEx ⟨11, some 7⟩) []).2.1 =
      (resolveAlbum albumChatEx ⟨11, some 7⟩).flatMap
        (fun m => [.insertKey (msgKey ['9'] m.id), .spawnTask m.id]) ∧
    (⟨13, some 7⟩ : Msg) ∈ resolveAlbum albumChatEx ⟨11, some 7⟩ := by
  have h := C7_resolve_album_dispatch albumChatEx ⟨11, some 7⟩ 7 ['9'] []
    rfl (by decide) (by decide) (by decide)
  refine ⟨by decide, h.2.1, h.2.2.1, h.2.2.2.1, ?_⟩
  exact (h.1 ⟨13, some 7⟩).mpr ⟨by decide, by decide, by decide, rfl⟩

/-! ## Dedup intake atomicity (C1)

In `reaction_handler` the dedup check (line 524: `if message_key in
self.downloaded_messages: return`) and the key insertion (line 580:
`self.downloaded_messages.add(message_key)`, immediately followed by
`asyncio.create_task`) are separated by the suspension point
`await self.client.get_messages(chat, ids=event.msg_id)` at line 529
(and by further awaits on the album path). The client is constructed
with default settings (line 61), under which each update's handler runs
as its own asyncio task, so the handlers of two updates interleave at
`await` points. The model gives each of two handlers for the same
DownloadKey two atomic steps — the ledger check, and the
insert-and-spawn pair — with arbitrary interleaving between them. -/

/-- Program counter of one reaction handler for the key in question. -/
inductive HPc where
  | start | checked | spawned | skipped
  deriving DecidableEq

/-- `keyClaimed`: whether `downloaded_messages` contains the key;
`spawns`: how many download tasks have been created for this key. -/
structure IntakeState where
  keyClaimed : Bool
  pc1 : HPc
  pc2 : HPc
  spawns : Nat
  deriving DecidableEq

/-- Atomic steps of the two handlers. A check passes (moving to the
suspended `checked` state) exactly when the key is unclaimed; the
insert-and-spawn step claims the key and spawns a task. -/
inductive IntakeStep : IntakeState → IntakeState → Prop
  | check1_pass (p : HPc) (n : Nat) :
      IntakeStep ⟨false, .start, p, n⟩ ⟨false, .checked, p, n⟩
  | check1_skip (p : HPc) (n : Nat) :
      IntakeStep ⟨true, .start, p, n⟩ ⟨true, .skipped, p, n⟩
  | insert1 (b : Bool) (p : HPc) (n : Nat) :
      IntakeStep ⟨b, .checked, p, n⟩ ⟨true, .spawned, p, n + 1⟩
  | check2_pass (p : HPc) (n : Nat) :
      IntakeStep ⟨false, p, .start, n⟩ ⟨false, p, .checked, n⟩
  | check2_skip (p : HPc) (n : Nat) :
      IntakeStep ⟨true, p, .start, n⟩ ⟨true, p, .skipped, n⟩
  | insert2 (b : Bool) (p : HPc) (n : Nat) :
      IntakeStep ⟨b, p, .checked, n⟩ ⟨true, p, .spawned, n + 1⟩

/-- States reachable from two undelivered handlers and an unclaimed key. -/
inductive IntakeReach : IntakeState → Prop
  | init : IntakeReach ⟨false, .start, .start, 0⟩
  | step {s s' : IntakeState} : IntakeReach s → IntakeStep s s' → IntakeReach s'

/-- C1 fails on the code: with both checks interleaved into the window
between the other handler's check and insert (each handler suspends in
`await get_messages` between the two), both handlers pass the dedup
check and both spawn — a reachable execution ends with two download
tasks spawned for the same DownloadKey. -/
theorem C1_race_two_spawns :
    ∃ s : IntakeState, IntakeReach s ∧
      s.pc1 = HPc.spawned ∧ s.pc2 = HPc.spawned ∧ s.spawns = 2 := by
  refine ⟨⟨true, .spawned, .spawned, 2⟩, ?_, rfl, rfl, rfl⟩
  have h1 := IntakeReach.init
  have h2 := h1.step (IntakeStep.check1_pass .start 0)
  have h3 := h2.step (IntakeStep.check2_pass .checked 0)
  have h4 := h3.step (IntakeStep.insert1 false .checked 0)
  exact h4.step (IntakeStep.insert2 true .spawned 1)

/-- For contrast: when the second handler's check runs only after the
first handler's insert (the sequential schedule the spec assumes), the
second finds the key claimed and exactly one task is spawned. The race
of `C1_race_two_spawns` therefore needs precisely the interleaving that
the `await` between check and insert permits. -/
theorem intake_sequential_single_spawn :
    IntakeReach ⟨true, HPc.spawned, HPc.skipped, 1⟩ := by
  have h1 := IntakeReach.init
  have h2 := h1.step (IntakeStep.check1_pass .start 0)
  have h3 := h2.step (IntakeStep.insert1 false .start 0)
  exact h3.step (IntakeStep.check2_skip .spawned 1)

end TgDl
